/-
Verification of the DynamoODM expression-building and update-merge core.

The development shallowly embeds the TypeScript source:
  - src/utils/helpers.ts   (replaceSymbol, isIterableArray, convertLogicalOperator,
                            setOperator, hashGenerator, toDynamoDBValue)
  - src/DynamoODM.ts       (the getList query compiler and the updateItem merge loop)

JavaScript runtime values are modelled by the inductive type `JsValue`; plain
objects are modelled as association lists in insertion order, which is the
enumeration order of string-keyed properties.  Property assignment keeps the
position of an existing key and appends a fresh key, exactly as the JS object
model does for string keys.  Structural equality (`JsValue.beq`) stands in for
the SameValueZero comparison used by `Set` and `Array.prototype.includes`; the
two agree on all primitive values, and the theorems below only ever compare
primitives (see `isPrimitive`).
-/
import Mathlib

set_option autoImplicit false

namespace DynamoODM

/-- A JavaScript runtime value.  `num` models the (integer) numbers that occur
in the repository; `undef` is `undefined`, kept distinct from `null` because the
merge engine tests `!== undefined`.  `func` stands for any value that is neither
a primitive, an array nor a plain object (e.g. a function). -/
inductive JsValue where
  | str (s : String)
  | num (n : Int)
  | bool (b : Bool)
  | null
  | undef
  | arr (elems : List JsValue)
  | obj (fields : List (String × JsValue))
  | func
deriving Repr, Inhabited

abbrev JsObject := List (String × JsValue)

mutual

/-- Structural equality on values; on primitives it coincides with the JS
SameValueZero comparison used by `Set` membership and `Array.prototype.includes`. -/
def JsValue.beq : JsValue → JsValue → Bool
  | .str a, .str b => a == b
  | .num a, .num b => a == b
  | .bool a, .bool b => a == b
  | .null, .null => true
  | .undef, .undef => true
  | .func, .func => true
  | .arr as, .arr bs => JsValue.beqList as bs
  | .obj as, .obj bs => JsValue.beqFields as bs
  | _, _ => false

def JsValue.beqList : List JsValue → List JsValue → Bool
  | [], [] => true
  | a :: as, b :: bs => JsValue.beq a b && JsValue.beqList as bs
  | _, _ => false

def JsValue.beqFields : List (String × JsValue) → List (String × JsValue) → Bool
  | [], [] => true
  | (k, v) :: as, (k', v') :: bs => k == k' && JsValue.beq v v' && JsValue.beqFields as bs
  | _, _ => false

end

instance : BEq JsValue := ⟨JsValue.beq⟩

/-- Whether a value is a JS primitive (string, number, boolean, null, undefined). -/
def JsValue.isPrimitive : JsValue → Bool
  | .str _ | .num _ | .bool _ | .null | .undef => true
  | _ => false

/-- On primitives, structural `beq` is exactly propositional equality (and hence
exactly the JS SameValueZero comparison). -/
theorem beq_iff_eq_of_isPrimitive (a b : JsValue)
    (ha : a.isPrimitive = true) : (a == b) = true ↔ a = b := by
  cases a <;> cases b <;>
    simp_all [JsValue.isPrimitive, BEq.beq, JsValue.beq]

/-- JS truthiness. -/
def JsValue.truthy : JsValue → Bool
  | .str s => s ≠ ""
  | .num n => n ≠ 0
  | .bool b => b
  | .null => false
  | .undef => false
  | .arr _ => true
  | .obj _ => true
  | .func => true

/-- Property read `x?.k`: a lookup on plain objects, `undefined`
(here: `none`) on everything else. -/
def JsValue.getField : JsValue → String → Option JsValue
  | .obj fs, k => fs.lookup k
  | _, _ => none

/-- Truthiness of a possibly-absent value (`undefined` is falsy). -/
def truthyOpt : Option JsValue → Bool
  | some v => v.truthy
  | none => false

/-- Property assignment `o[k] = v` on a string-keyed object: replaces the value
in place when the key exists (string keys keep their position), appends
otherwise. -/
def setKey {β : Type} (o : List (String × β)) (k : String) (v : β) : List (String × β) :=
  match o with
  | [] => [(k, v)]
  | (k', v') :: rest => if k' = k then (k, v) :: rest else (k', v') :: setKey rest k v

/-- Does the object own the key (`hasOwnProperty`)? -/
def hasKey {β : Type} (o : List (String × β)) (k : String) : Bool :=
  (o.lookup k).isSome

/-- Assignment that also reports whether it replaced an existing entry. -/
def setKeyTrack {β : Type} (o : List (String × β)) (k : String) (v : β) :
    List (String × β) × Bool :=
  (setKey o k v, hasKey o k)

/-- Object spread `{...a, ...b}`: every entry of `b` assigned onto `a` in order. -/
def objUnion (a b : JsObject) : JsObject :=
  b.foldl (fun acc p => setKey acc p.1 p.2) a

/-- First-occurrence deduplication, the iteration order of `new Set(l)`. -/
def dedupAux {α : Type} [BEq α] (seen : List α) : List α → List α
  | [] => []
  | x :: xs => if seen.contains x then dedupAux seen xs else x :: dedupAux (x :: seen) xs

/-- Spreading a set, `[...new Set(l)]`. -/
def dedupFirst {α : Type} [BEq α] (l : List α) : List α :=
  dedupAux [] l

theorem setKey_lookup_self {β : Type} (o : List (String × β)) (k : String) (v : β) :
    (setKey o k v).lookup k = some v := by
  induction o with
  | nil => simp [setKey, List.lookup]
  | cons p rest ih =>
    obtain ⟨k', v'⟩ := p
    by_cases h : k' = k
    · simp [setKey, h, List.lookup]
    · have hne : (k == k') = false := by
        simp only [beq_eq_false_iff_ne, ne_eq]
        exact fun hh => h hh.symm
      simp [setKey, h, List.lookup, hne, ih]

theorem setKey_lookup_other {β : Type} (o : List (String × β)) (k k' : String) (v : β)
    (h : k' ≠ k) : (setKey o k v).lookup k' = o.lookup k' := by
  induction o with
  | nil =>
    have hne : (k' == k) = false := by
      simp only [beq_eq_false_iff_ne, ne_eq]
      exact h
    simp [setKey, List.lookup, hne]
  | cons p rest ih =>
    obtain ⟨k0, v0⟩ := p
    by_cases hp : k0 = k
    · subst hp
      have hne : (k' == k0) = false := by
        simp only [beq_eq_false_iff_ne, ne_eq]
        exact h
      simp [setKey, List.lookup, hne]
    · by_cases hk' : k' = k0
      · simp [setKey, hp, List.lookup, hk']
      · have hne : (k' == k0) = false := by
          simp only [beq_eq_false_iff_ne, ne_eq]
          exact hk'
        simp [setKey, hp, List.lookup, hne, ih]

-- ***************************************************************************
-- src/utils/helpers.ts
-- ***************************************************************************

/-- The character class of `replaceSymbol`'s regular expression
`[\{\}\[\]\/?.,;:|\)*~%60!^\-_+<>@\#$%&\\\=\(\'\"\s]` (the backtick, quote and
backslash characters are written via their code points below), together with
the code points matched by `\s`. -/
def isSymbolChar (c : Char) : Bool :=
  c = Char.ofNat 123 || c = Char.ofNat 125 ||   -- braces
  c = '[' || c = ']' || c = '/' || c = '?' || c = '.' || c = ',' ||
  c = ';' || c = ':' || c = '|' || c = ')' || c = '*' || c = '~' ||
  c = Char.ofNat 96 ||                          -- backtick
  c = '!' || c = '^' || c = '-' || c = '_' || c = '+' || c = '<' ||
  c = '>' || c = '@' || c = '#' || c = '$' || c = '%' || c = '&' ||
  c = Char.ofNat 92 ||                          -- backslash
  c = '=' || c = '(' ||
  c = Char.ofNat 39 || c = Char.ofNat 34 ||     -- quote characters
  -- \s : whitespace and line terminators
  c = ' ' || c = Char.ofNat 9 || c = Char.ofNat 10 || c = Char.ofNat 11 ||
  c = Char.ofNat 12 || c = Char.ofNat 13 || c = Char.ofNat 160 ||
  c = Char.ofNat 0x1680 || (0x2000 ≤ c.val && c.val ≤ 0x200a) ||
  c = Char.ofNat 0x2028 || c = Char.ofNat 0x2029 || c = Char.ofNat 0x202f ||
  c = Char.ofNat 0x205f || c = Char.ofNat 0x3000 || c = Char.ofNat 0xfeff

/-- Embeds `replaceSymbol(str, replacer = '')`: every character of the forbidden class
is replaced by `replacer` (a global regex replace). -/
def replaceSymbol (str : String) (replacer : String) : String :=
  String.join (str.data.map (fun c => if isSymbolChar c then replacer else String.singleton c))

/-- Embeds `isIterableArray(value)`: the value is an array with positive length (the
embedding is applied at list type only, as in the source call sites). -/
def isIterableArray {α : Type} (value : List α) : Bool :=
  value.length > 0

/-- Embeds `str.toUpperCase()` for the ASCII strings the repository compares
(logical-operator and comparison-operator names). -/
def asciiUpper (s : String) : String := String.mk (s.data.map Char.toUpper)

/-- Embeds `str.toLowerCase()` for the ASCII strings the repository compares. -/
def asciiLower (s : String) : String := String.mk (s.data.map Char.toLower)

/-- Embeds `convertLogicalOperator(operator)`: uppercases and accepts only AND / OR;
the thrown `Error` is modelled as `none`. -/
def convertLogicalOperator (operator : String) : Option String :=
  match asciiUpper operator with
  | "AND" => some "AND"
  | "OR" => some "OR"
  | _ => none

/-- Embeds `setOperator({keyName, valueName, value2Name, operator})` (the object
parameter is passed positionally here). -/
def setOperator (keyName valueName value2Name operator : String) : String :=
  match asciiLower operator with
  | "begins_with" | "contains" =>
      asciiLower operator ++ "(" ++ keyName ++ ", " ++ valueName ++ ")"
  | "neq" => keyName ++ " <> " ++ valueName
  | "less_than" => keyName ++ " < " ++ valueName
  | "less_or_equal" => keyName ++ " <= " ++ valueName
  | "greater_than" => keyName ++ " > " ++ valueName
  | "greater_or_equal" => keyName ++ " >= " ++ valueName
  | "between" => keyName ++ " BETWEEN " ++ valueName ++ " AND " ++ value2Name
  | "attribute_not_exists" => "attribute_not_exists(" ++ keyName ++ ")"
  | "attribute_exists" => "attribute_exists(" ++ keyName ++ ")"
  | _ => keyName ++ " = " ++ valueName

mutual

/-- Embeds `toDynamoDBValue(value)`: strings pass through, numbers are stringified,
arrays map element-wise through the codec, booleans pass through, `null` and
`undefined` become `null`; the thrown unsupported-type `Error` is `none`. -/
def toDynamoDBValue : JsValue → Option JsValue
  | .str s => some (.str s)
  | .num n => some (.str (toString n))
  | .arr xs => (toDynamoDBValueList xs).map .arr
  | .bool b => some (.bool b)
  | .null => some .null
  | .undef => some .null
  | .obj _ => none
  | .func => none

/-- Embeds `value.map(toDynamoDBValue)` with exception propagation. -/
def toDynamoDBValueList : List JsValue → Option (List JsValue)
  | [] => some []
  | x :: xs => do
      let y ← toDynamoDBValue x
      let ys ← toDynamoDBValueList xs
      pure (y :: ys)

end

mutual

/-- The class of values the codec supports: primitives and, recursively,
arrays of supported values (this is the claim's classification, stated as a
decidable predicate). -/
def supportedValue : JsValue → Bool
  | .str _ | .num _ | .bool _ | .null | .undef => true
  | .arr xs => supportedList xs
  | .obj _ | .func => false

def supportedList : List JsValue → Bool
  | [] => true
  | x :: xs => supportedValue x && supportedList xs

end

-- ***************************************************************************
-- src/DynamoODM.ts : getList (the list-query compiler)
-- ***************************************************************************

/-- The codec `toDynamoDBValue` restricted to its string-typed call sites inside
`getList` (`FilterInfo.value`, `value2`, a scalar or mapped `pk`, and
`startKey` are all `string` in src/types.ts): on strings the codec is the
identity embedding (theorem `toDynamoDBValue_str`). -/
def toDynamoDBValueStr (s : String) : JsValue := .str s

theorem toDynamoDBValue_str (s : String) :
    toDynamoDBValue (.str s) = some (toDynamoDBValueStr s) := rfl

/-- The type `ParamsInfo.pk : string | Record<string, string>`. -/
inductive PartitionKey where
  | scalar (s : String)
  | mapping (entries : List (String × String))

/-- The record `FilterInfo` from src/types.ts (the operator enumeration is carried as the
string it is compared against in `setOperator`). -/
structure FilterInfo where
  field : String
  value : String
  value2 : Option String
  operator : String

/-- The fields of `ParamsInfo` consumed by `getList`, plus the per-page limit
extracted from `pagination`.  The logical-operator fields are optional, with
`getList` defaulting them to `LogicalOperator.AND` on destructuring. -/
structure ListParams where
  pk : PartitionKey
  filters : List FilterInfo
  keyConditionLogicalOperator : Option String
  filterLogicalOperator : Option String
  sort : Option String
  perPage : Option Nat
  startKey : Option String

/-- Truthiness of the optional `indexName` argument (an empty string is falsy). -/
def idxTruthy : Option String → Bool
  | some s => s ≠ ""
  | none => false

/-- Embeds `typeof pk === 'object' ? Object.entries(pk).flat() : ['pk', pk]`,
destructured to its first two components.  An empty mapping would destructure
to `undefined` placeholders, which is outside the `Record<string, string>`
call contract; it is given the pair of empty strings here. -/
def resolvePk : PartitionKey → String × String
  | .scalar s => ("pk", s)
  | .mapping entries => entries.headD ("", "")

/-- The accumulating state of `getList`'s filter loop.  `ctr` counts the calls
made to the (random) hash generator, modelled as the oracle `hashes : Nat →
String` supplying the i-th generated suffix.  `overwroteValues` and `trace` are
proof instrumentation, not part of the source: the former records whether any
assignment into `reqExpressionAttributeValues` replaced an existing entry, the
latter records each filter's `(field, fragment)` pair in order. -/
structure CompileState where
  names : List (String × String)
  values : List (String × JsValue)
  keyCondFrags : List String
  filterFrags : List String
  ctr : Nat
  overwroteValues : Bool
  trace : List (String × String)

/-- The seed state: placeholders for the partition key (the only sanitized
names), the single-fragment key condition `#pk = :pk`, and the two singleton
attribute maps. -/
def initState (pk : PartitionKey) : CompileState :=
  let p := resolvePk pk
  let attrKeyName := "#" ++ replaceSymbol p.1 ""
  let attrValueName := ":" ++ replaceSymbol p.1 ""
  ⟨[(attrKeyName, p.1)], [(attrValueName, toDynamoDBValueStr p.2)],
   [attrKeyName ++ " = " ++ attrValueName], [], 0, false, []⟩

/-- The fixed routing rule at the tail of the filter loop: the source's
`field === 'sk'` branch and `indexName && field === 'date'` branch have
identical bodies (push the fragment onto the key-condition list) and are
folded into this disjunction; the final `else` pushes onto the
filter-expression list. -/
def routeToKeyCondition (indexName : Option String) (field : String) : Bool :=
  field == "sk" || (idxTruthy indexName && field == "date")

/-- One iteration of `getList`'s `for (const { field, value, value2, operator }
of filters)` loop.  The field is used verbatim in `'#' + field` and
`':' + field`; only the primary value placeholder is re-checked for collisions
(via `hasOwnProperty`), receiving a generated suffix when it already exists. -/
def processFilter (indexName : Option String) (hashes : Nat → String)
    (st : CompileState) (f : FilterInfo) : CompileState :=
  let keyName := "#" ++ f.field
  let valueName0 := ":" ++ f.field
  let value2Name := ":" ++ f.field ++ "2"
  let names := setKey st.names keyName f.field
  let (valueName, ctr) :=
    if hasKey st.values valueName0 then (valueName0 ++ hashes st.ctr, st.ctr + 1)
    else (valueName0, st.ctr)
  let (values1, ow1) := setKeyTrack st.values valueName (toDynamoDBValueStr f.value)
  let (values2, ow2) :=
    match f.value2 with
    | some v2 => setKeyTrack values1 value2Name (toDynamoDBValueStr v2)
    | none => (values1, false)
  let frag := setOperator keyName valueName value2Name f.operator
  let ow := st.overwroteValues || ow1 || ow2
  let tr := st.trace ++ [(f.field, frag)]
  if routeToKeyCondition indexName f.field then
    ⟨names, values2, st.keyCondFrags ++ [frag], st.filterFrags, ctr, ow, tr⟩
  else
    ⟨names, values2, st.keyCondFrags, st.filterFrags ++ [frag], ctr, ow, tr⟩

/-- The whole filter loop of `getList`. -/
def compileFilters (indexName : Option String) (hashes : Nat → String)
    (params : ListParams) : CompileState :=
  params.filters.foldl (processFilter indexName hashes) (initState params.pk)

/-- The `options : Partial<QueryCommandInput>` object assembled by `getList`
(the constant `TableName` pass-through is omitted). -/
structure QueryOptions where
  keyConditionExpression : String
  expressionAttributeNames : List (String × String)
  expressionAttributeValues : List (String × JsValue)
  scanIndexForward : Bool
  limit : Option Nat
  indexName : Option String
  exclusiveStartKey : Option JsValue
  filterExpression : Option String

/-- Assembly of the `options` object.  `KeyConditionExpression` joins the key
fragments with the converted logical operator (whose `Error` propagates as
`none`); `FilterExpression` is only present — and its join operator only
converted — when the filter fragment list is non-empty; `IndexName` and
`ExclusiveStartKey` are spread in only when truthy. -/
def getListOptions (indexName : Option String) (hashes : Nat → String)
    (params : ListParams) : Option QueryOptions := do
  let st := compileFilters indexName hashes params
  let kop := params.keyConditionLogicalOperator.getD "AND"
  let fop := params.filterLogicalOperator.getD "AND"
  let kj ← convertLogicalOperator kop
  let filterExpr ←
    if isIterableArray st.filterFrags then
      (convertLogicalOperator fop).map (fun fj => some (String.intercalate fj st.filterFrags))
    else pure none
  pure ⟨String.intercalate kj st.keyCondFrags, st.names, st.values,
        params.sort != some "DESC", params.perPage,
        (match indexName with
         | some s => if s ≠ "" then some s else none
         | none => none),
        (match params.startKey with
         | some s => if s ≠ "" then some (toDynamoDBValueStr s) else none
         | none => none),
        filterExpr⟩

-- ***************************************************************************
-- src/DynamoODM.ts : updateItem (the update-merge engine)
-- ***************************************************************************

/-- Array spread `[...x]`: arrays give their elements, strings their
characters, anything else raises a TypeError (`none`). -/
def spreadElems : JsValue → Option (List JsValue)
  | .arr xs => some xs
  | .str s => some (s.data.map (fun c => .str (String.singleton c)))
  | _ => none

/-- The argument of `new Set(x)`: `undefined` and `null` give the empty
collection, otherwise the value must be iterable. -/
def setArgElems : Option JsValue → Option (List JsValue)
  | none => some []
  | some .undef => some []
  | some .null => some []
  | some v => spreadElems v

/-- Own enumerable string-keyed properties, as collected by an object spread
`{...x}`: objects give their fields, strings their indexed characters, all
other values (including `undefined` and `null`) contribute nothing. -/
def spreadFields : Option JsValue → List (String × JsValue)
  | some (.obj fs) => fs
  | some (.str s) => s.data.enum.map (fun p => (toString p.1, JsValue.str (String.singleton p.2)))
  | _ => []

/-- Embeds `Array.isArray(x)` on a possibly-absent value. -/
def isArrOpt : Option JsValue → Bool
  | some (.arr _) => true
  | _ => false

mutual

/-- Embeds `_.merge(dst, src)` (lodash deep merge), as the value it leaves at the
destination: `undefined` sources are skipped, plain objects merge recursively
per key, arrays merge index-wise, and any other source value replaces the
destination. -/
def lodashMerge : JsValue → JsValue → JsValue
  | d, .undef => d
  | .obj dfs, .obj sfs => .obj (lodashMergeFields dfs sfs)
  | .arr ds, .arr ss => .arr (lodashMergeList ds ss)
  | _, s => s

def lodashMergeFields : List (String × JsValue) → List (String × JsValue) →
    List (String × JsValue)
  | dfs, [] => dfs
  | dfs, (k, sv) :: rest =>
      lodashMergeFields (setKey dfs k (lodashMerge ((dfs.lookup k).getD .undef) sv)) rest

def lodashMergeList : List JsValue → List JsValue → List JsValue
  | ds, [] => ds
  | [], s :: ss => s :: lodashMergeList [] ss
  | d :: ds, s :: ss => lodashMerge d s :: lodashMergeList ds ss

end

/-- Splitting a string on the `.` character (the lodash path separator);
`String.splitOn "."` at the character level. -/
def splitDotAux : List Char → List Char → List String
  | [], acc => [String.mk acc.reverse]
  | c :: cs, acc =>
      if c = '.' then String.mk acc.reverse :: splitDotAux cs []
      else splitDotAux cs (c :: acc)

/-- The dot-separated segments of a lodash path string. -/
def splitDot (s : String) : List String := splitDotAux s.data []

/-- Embeds `_.unset(obj, path)` on a plain object, with the dot-separated key path
lodash parses out of a path string (bracket segments do not occur in the
repository's update documents). -/
def unsetPath : List (String × JsValue) → List String → List (String × JsValue)
  | fs, [] => fs
  | fs, [k] => fs.filter (fun p => p.1 != k)
  | fs, k :: rest =>
      match fs.lookup k with
      | some (.obj inner) => setKey fs k (.obj (unsetPath inner rest))
      | _ => fs

/-- Embeds `data[attr].remove?.includes(v)` as the filter it induces: absent, `null`
and `undefined` removers keep every element (the optional chain yields
`undefined`, which is falsy); an array remover removes its members
(SameValueZero, here structural `beq`).  A string remover would perform
`String.prototype.includes` on the coerced element and the remaining
primitives would raise a TypeError; neither is reached by any theorem below,
and both are mapped to `none`. -/
def removeFilter : Option JsValue → List JsValue → Option (List JsValue)
  | none, l => some l
  | some .undef, l => some l
  | some .null, l => some l
  | some (.arr r), l => some (l.filter (fun v => !(r.contains v)))
  | some _, _ => none

/-- The three object-valued locals of the merge section of `updateItem`:
`previousData` (the stored item), `data` (the update document, which the loop
writes into) and `requestData` (the accumulating result). -/
structure MergeState where
  prev : JsObject
  data : JsObject
  request : JsObject

/-- One iteration of `for (const attr in data)` in `updateItem`, with its four
mutually exclusive branches tested in source order:
array-merge (`add` or `remove` is an array), object-add merge (`add` truthy and
not an array; the `Object.keys(add)` conjunct of the source is always truthy
for such `add` and is dropped), object-remove (`remove` a non-empty string),
and plain replacement. -/
def mergeStep (st : MergeState) (attr : String) : Option MergeState :=
  let dv := (st.data.lookup attr).getD .undef
  let addV := dv.getField "add"
  let remV := dv.getField "remove"
  if isArrOpt addV || isArrOpt remV then
    -- if (data[attr]?.add !== undefined && !previousData?.[attr]) previousData[attr] = []
    let prev1 :=
      if addV.isSome && !truthyOpt (st.prev.lookup attr) then setKey st.prev attr (.arr [])
      else st.prev
    -- const arrValue = [...new Set(data[attr].add
    --   ? [...data[attr].add, ...previousData[attr]] : previousData[attr])]
    let baseM : Option (List JsValue) :=
      if truthyOpt addV then do
        let a ← spreadElems (addV.getD .undef)
        let p ← spreadElems ((prev1.lookup attr).getD .undef)
        pure (a ++ p)
      else setArgElems (prev1.lookup attr)
    match baseM with
    | none => none
    | some base =>
      let arrValue := dedupFirst base
      -- data[attr] = arrValue.filter((v) => !data[attr].remove?.includes(v))
      match removeFilter remV arrValue with
      | none => none
      | some filtered =>
        let data1 := setKey st.data attr (.arr filtered)
        -- requestData = { ...requestData, ...(data[attr].length > 0 && { [attr]: data[attr] }) }
        let request1 :=
          if filtered.length > 0 then setKey st.request attr (.arr filtered) else st.request
        some ⟨prev1, data1, request1⟩
  else if truthyOpt addV && !isArrOpt addV then
    -- if (!requestData[attr]) requestData = { ...requestData,
    --   [attr]: { ...requestData[attr], ...data[attr].add } }
    let request1 :=
      if !truthyOpt (st.request.lookup attr) then
        setKey st.request attr
          (.obj (objUnion (spreadFields (st.request.lookup attr)) (spreadFields addV)))
      else st.request
    -- _.merge(requestData?.[attr], data[attr]?.add) — mutates the object held
    -- at the attribute; merging into a non-object value has no lasting effect
    let request2 :=
      match request1.lookup attr with
      | some (.obj fs) => setKey request1 attr (lodashMerge (.obj fs) (addV.getD .undef))
      | _ => request1
    some ⟨st.prev, st.data, request2⟩
  else if (match remV with | some (.str s) => s != "" | _ => false) then
    -- _.unset(requestData?.[attr], data[attr]?.remove) — mutates the nested
    -- object; unsetting inside a non-object value has no lasting effect
    let request1 :=
      match st.request.lookup attr, remV with
      | some (.obj fs), some (.str path) =>
          setKey st.request attr (.obj (unsetPath fs (splitDot path)))
      | _, _ => st.request
    some ⟨st.prev, st.data, request1⟩
  else
    -- requestData = { ...requestData, [attr]: data[attr] }
    some ⟨st.prev, st.data, setKey st.request attr dv⟩

/-- The loop over the update document's attribute names. -/
def mergeLoop : MergeState → List String → Option MergeState
  | st, [] => some st
  | st, a :: as => (mergeStep st a).bind (fun st' => mergeLoop st' as)

/-- The merge section of `updateItem` (src/DynamoODM.ts, lines 238–279): seeds
`requestData = { ...previousData }` (a shallow copy) and runs the
`for (const attr in data)` loop.  Key enumeration follows the insertion order
of `data`; the loop's only assignment into `data` targets the key being
visited, so the key list is fixed up front.  (JS would enumerate integer-like
keys first; the attribute names used below are not integer-like.)  The
`updated_at` timestamp is spread onto the put-request afterwards, outside this
section. -/
def mergeUpdate (previousData data : JsObject) : Option MergeState :=
  mergeLoop ⟨previousData, data, previousData⟩ (data.map Prod.fst)

-- ***************************************************************************
-- General lemmas about the embedded operations
-- ***************************************************************************

theorem string_append_left_cancel {s a b : String} (h : s ++ a = s ++ b) : a = b := by
  apply String.ext
  have h2 := congrArg String.data h
  rw [String.data_append, String.data_append] at h2
  exact List.append_cancel_left h2

theorem string_append_ne_self {a b : String} (h : b ≠ "") : a ++ b ≠ a := by
  intro hh
  apply h
  have h2 : a ++ b = a ++ "" := by rw [String.append_empty]; exact hh
  exact string_append_left_cancel h2

theorem hasKey_cons {β : Type} (a k : String) (x : β) (rest : List (String × β)) :
    hasKey ((a, x) :: rest) k = (k == a || hasKey rest k) := by
  cases h : k == a <;> simp [hasKey, List.lookup, h]

theorem setKey_not_mem {β : Type} (o : List (String × β)) (k : String) (v : β)
    (h : hasKey o k = false) : setKey o k v = o ++ [(k, v)] := by
  induction o with
  | nil => rfl
  | cons p rest ih =>
    obtain ⟨a, x⟩ := p
    rw [hasKey_cons] at h
    have h1 : a ≠ k := by
      intro hh
      subst hh
      simp at h
    have h2 : hasKey rest k = false := by
      rcases Bool.or_eq_false_iff.mp h with ⟨-, h2⟩
      exact h2
    simp [setKey, h1, ih h2]

/-- A filter without `value2` whose plain value placeholder is fresh: the
values map gains that placeholder, the hash counter does not advance, and no
entry is replaced. -/
theorem processFilter_plain (idx : Option String) (hashes : Nat → String)
    (st : CompileState) (fld val op : String)
    (hk : hasKey st.values (":" ++ fld) = false) :
    (processFilter idx hashes st ⟨fld, val, none, op⟩).values =
      setKey st.values (":" ++ fld) (toDynamoDBValueStr val) ∧
    (processFilter idx hashes st ⟨fld, val, none, op⟩).ctr = st.ctr ∧
    (processFilter idx hashes st ⟨fld, val, none, op⟩).overwroteValues = st.overwroteValues := by
  simp only [processFilter, hk, Bool.false_eq_true, if_false, setKeyTrack]
  split <;> simp [hk]

/-- A filter without `value2` whose plain value placeholder collides: the
suffixed placeholder is assigned instead, the hash counter advances, and an
entry is replaced exactly when the suffixed name also already exists. -/
theorem processFilter_collide (idx : Option String) (hashes : Nat → String)
    (st : CompileState) (fld val op : String)
    (hk : hasKey st.values (":" ++ fld) = true) :
    (processFilter idx hashes st ⟨fld, val, none, op⟩).values =
      setKey st.values ((":" ++ fld) ++ hashes st.ctr) (toDynamoDBValueStr val) ∧
    (processFilter idx hashes st ⟨fld, val, none, op⟩).ctr = st.ctr + 1 ∧
    (processFilter idx hashes st ⟨fld, val, none, op⟩).overwroteValues =
      (st.overwroteValues || hasKey st.values ((":" ++ fld) ++ hashes st.ctr)) := by
  simp only [processFilter, hk, if_true, setKeyTrack]
  split <;> simp [hk]

-- ***************************************************************************
-- Claim C1 : the spec's worked update-merge example
-- ***************************************************************************

/-- The previous item of the spec's worked example. -/
def c1prev : JsObject :=
  [("pk", .str "a"), ("sk", .str "b"), ("tags", .arr [.str "x", .str "y"])]

/-- The update document of the spec's worked example. -/
def c1doc : JsObject := [("tags", .obj [("add", .arr [.str "y", .str "z"])])]

/-- C1 (counterexample): on previous `{pk:"a", sk:"b", tags:["x","y"]}` and
update `{tags: {add:["y","z"]}}`, the merged `tags` is NOT `["z","x","y"]` as
the claim states. -/
theorem claim_C1_counterexample :
    (mergeUpdate c1prev c1doc).map (fun st => st.request.lookup "tags") ≠
      some (some (.arr [.str "z", .str "x", .str "y"])) := by
  intro h
  rw [show (mergeUpdate c1prev c1doc).map (fun st => st.request.lookup "tags") =
      some (some (.arr [.str "y", .str "z", .str "x"])) from rfl] at h
  simp at h

/-- C1 (amended): on previous `{pk:"a", sk:"b", tags:["x","y"]}` and update
`{tags: {add:["y","z"]}}`, the merged `tags` is `["y","z","x"]` — the add
elements in order, then the not-yet-seen previous elements (first-occurrence
deduplication), not the `["z","x","y"]` the spec prints. -/
theorem claim_C1 :
    (mergeUpdate c1prev c1doc).map (fun st => st.request.lookup "tags") =
      some (some (.arr [.str "y", .str "z", .str "x"])) := rfl

-- ***************************************************************************
-- Claim C8 : scalar partition key, no filters
-- ***************************************************************************

/-- The list request of C8: scalar partition key `"user#1"`, no filters. -/
def c8params : ListParams := ⟨.scalar "user#1", [], none, none, none, none, none⟩

/-- C8: with scalar partition key `"user#1"` and no filters, the compiled
query has key condition exactly `#pk = :pk`, attribute value `:pk` bound to
`"user#1"`, and no filter expression at all (for every hash oracle). -/
theorem claim_C8 (hashes : Nat → String) :
    (getListOptions none hashes c8params).map QueryOptions.keyConditionExpression =
      some "#pk = :pk" ∧
    (getListOptions none hashes c8params).map
        (fun q => q.expressionAttributeValues.lookup ":pk") =
      some (some (.str "user#1")) ∧
    (getListOptions none hashes c8params).map QueryOptions.filterExpression =
      some none :=
  ⟨rfl, rfl, rfl⟩

-- ***************************************************************************
-- Claim C10 : fragments are joined with the bare operator, no whitespace
-- ***************************************************************************

/-- C10: key-condition fragments are joined with the bare string `"AND"` (and
filter fragments with the bare `"OR"` when that join is requested), with no
surrounding whitespace: an `sk` equality filter yields the key condition
`#pk = :pkAND#sk = :sk`, and two plain filters joined by `or` yield the filter
expression `#a = :aOR#b = :b`. -/
theorem claim_C10 (hashes : Nat → String) (v : String) :
    (getListOptions none hashes
        ⟨.scalar "user#1", [⟨"sk", v, none, "eq"⟩], none, none, none, none, none⟩).map
      QueryOptions.keyConditionExpression = some "#pk = :pkAND#sk = :sk" ∧
    (getListOptions none hashes
        ⟨.scalar "u", [⟨"a", "1", none, "eq"⟩, ⟨"b", "2", none, "eq"⟩],
         none, some "or", none, none, none⟩).map
      QueryOptions.filterExpression = some (some "#a = :aOR#b = :b") :=
  ⟨rfl, rfl⟩

-- ***************************************************************************
-- Claim C4 : value-placeholder collisions
-- ***************************************************************************

/-- A deterministic stand-in for the random suffix oracle. -/
def c4hashes : Nat → String := fun i => "h" ++ toString i

/-- One `between` filter on `amount`. -/
def c4paramsOne : ListParams :=
  ⟨.scalar "p", [⟨"amount", "10", some "20", "between"⟩], none, none, none, none, none⟩

/-- Two `between` filters on the same field `amount`. -/
def c4params : ListParams :=
  ⟨.scalar "p",
   [⟨"amount", "10", some "20", "between"⟩, ⟨"amount", "30", some "40", "between"⟩],
   none, none, none, none, none⟩

/-- C4 (counterexample): two `between` filters on the same field `amount`
(both supplying `value2`) overwrite the attribute-value entry `:amount2`: the
first filter binds it to `"20"`, yet the compiled map binds it to `"40"`, and
the first fragment still references the replaced placeholder. -/
theorem claim_C4_counterexample :
    (compileFilters none c4hashes c4paramsOne).values.lookup ":amount2" = some (.str "20") ∧
    (compileFilters none c4hashes c4params).values.lookup ":amount2" = some (.str "40") ∧
    (compileFilters none c4hashes c4params).overwroteValues = true ∧
    (compileFilters none c4hashes c4params).filterFrags =
      ["#amount BETWEEN :amount AND :amount2", "#amount BETWEEN :amounth0 AND :amount2"] :=
  ⟨rfl, rfl, rfl, rfl⟩

/-- C4 (amended): only the plain value placeholder is collision-checked.  For
two filters on the same field without `value2` and with a generated suffix
that yields a fresh non-empty name, the compiled attribute-value map is
exactly `:pk`, `:field`, `:field<suffix>` — three distinct keys, nothing
replaced.  A filter supplying `value2` writes `:field2` with no collision
check at all (see the counterexample). -/
theorem claim_C4 (pkv f v1 v2 op1 op2 : String) (hashes : Nat → String)
    (h1 : f ≠ "pk") (h2 : hashes 0 ≠ "") (h3 : f ++ hashes 0 ≠ "pk") :
    ((compileFilters none hashes
        ⟨.scalar pkv, [⟨f, v1, none, op1⟩, ⟨f, v2, none, op2⟩],
         none, none, none, none, none⟩).values =
      [(":pk", .str pkv), (":" ++ f, .str v1), ((":" ++ f) ++ hashes 0, .str v2)]) ∧
    ((compileFilters none hashes
        ⟨.scalar pkv, [⟨f, v1, none, op1⟩, ⟨f, v2, none, op2⟩],
         none, none, none, none, none⟩).overwroteValues = false) ∧
    ((":" ++ f : String) ≠ ":pk" ∧ ((":" ++ f) ++ hashes 0 : String) ≠ ":pk" ∧
      ((":" ++ f) ++ hashes 0 : String) ≠ ":" ++ f) := by
  have hne1 : ((":" ++ f : String) == ":pk") = false := by
    rw [beq_eq_false_iff_ne]
    intro hh
    exact h1 (string_append_left_cancel (s := ":") (a := f) (b := "pk") hh)
  have hne2 : (((":" ++ f) ++ hashes 0 : String) == ":pk") = false := by
    rw [beq_eq_false_iff_ne]
    intro hh
    rw [String.append_assoc] at hh
    exact h3 (string_append_left_cancel (s := ":") (a := f ++ hashes 0) (b := "pk") hh)
  have hne3 : (((":" ++ f) ++ hashes 0 : String) == ":" ++ f) = false := by
    rw [beq_eq_false_iff_ne]
    exact string_append_ne_self h2
  have hK1 : hasKey [((":pk" : String), toDynamoDBValueStr pkv)] (":" ++ f) = false := by
    simp [hasKey, List.lookup, hne1]
  have e0 : initState (.scalar pkv) =
      ⟨[("#pk", "pk")], [(":pk", toDynamoDBValueStr pkv)], ["#pk = :pk"], [], 0, false, []⟩ := rfl
  have step1 := processFilter_plain none hashes (initState (.scalar pkv)) f v1 op1
    (by rw [e0]; exact hK1)
  have hv1 : (processFilter none hashes (initState (.scalar pkv)) ⟨f, v1, none, op1⟩).values =
      [(":pk", toDynamoDBValueStr pkv), (":" ++ f, toDynamoDBValueStr v1)] := by
    rw [step1.1, e0]
    exact setKey_not_mem _ _ _ hK1
  have hK2 : hasKey [((":pk" : String), toDynamoDBValueStr pkv),
      (":" ++ f, toDynamoDBValueStr v1)] (":" ++ f) = true := by
    simp [hasKey_cons, hne1]
  have hK3 : hasKey [((":pk" : String), toDynamoDBValueStr pkv),
      (":" ++ f, toDynamoDBValueStr v1)] ((":" ++ f) ++ hashes 0) = false := by
    rw [hasKey_cons, hasKey_cons, hne2, hne3]
    rfl
  have step2 := processFilter_collide none hashes
    (processFilter none hashes (initState (.scalar pkv)) ⟨f, v1, none, op1⟩) f v2 op2
    (by rw [hv1]; exact hK2)
  have hctr : (processFilter none hashes (initState (.scalar pkv)) ⟨f, v1, none, op1⟩).ctr = 0 := by
    rw [step1.2.1, e0]
  have hcf : compileFilters none hashes
      ⟨.scalar pkv, [⟨f, v1, none, op1⟩, ⟨f, v2, none, op2⟩],
       none, none, none, none, none⟩ =
      processFilter none hashes
        (processFilter none hashes (initState (.scalar pkv)) ⟨f, v1, none, op1⟩)
        ⟨f, v2, none, op2⟩ := rfl
  refine ⟨?_, ?_, beq_eq_false_iff_ne.mp hne1, beq_eq_false_iff_ne.mp hne2,
    beq_eq_false_iff_ne.mp hne3⟩
  · rw [hcf, step2.1, hv1, hctr]
    rw [setKey_not_mem _ _ _ hK3]
    rfl
  · rw [hcf, step2.2.2, hv1, hctr, step1.2.2, e0, hK3]
    rfl

/-- C4 witness: the amended theorem applied at field `a`, suffix `h0`. -/
theorem claim_C4_witness :
    ((compileFilters none c4hashes
        ⟨.scalar "p", [⟨"a", "1", none, "eq"⟩, ⟨"a", "2", none, "neq"⟩],
         none, none, none, none, none⟩).values =
      [(":pk", .str "p"), (":" ++ "a", .str "1"), ((":" ++ "a") ++ c4hashes 0, .str "2")]) ∧
    ((compileFilters none c4hashes
        ⟨.scalar "p", [⟨"a", "1", none, "eq"⟩, ⟨"a", "2", none, "neq"⟩],
         none, none, none, none, none⟩).overwroteValues = false) ∧
    ((":" ++ "a" : String) ≠ ":pk" ∧ ((":" ++ "a") ++ c4hashes 0 : String) ≠ ":pk" ∧
      ((":" ++ "a") ++ c4hashes 0 : String) ≠ ":" ++ "a") :=
  claim_C4 "p" "a" "1" "2" "eq" "neq" c4hashes
    (by decide) (by decide) (by decide)

-- ***************************************************************************
-- Claim C5 : filter fields are not sanitized
-- ***************************************************************************

/-- A single filter whose field `a.b` contains a forbidden character. -/
def c5params : ListParams := ⟨.scalar "p", [⟨"a.b", "v", none, "eq"⟩], none, none, none, none, none⟩

/-- C5 (counterexample): the filter field `a.b` (whose sanitized form is
`ab`) is used verbatim: the compiled maps hold the placeholders `#a.b` and
`:a.b`, which contain the forbidden character, and not `#ab` / `:ab`. -/
theorem claim_C5_counterexample :
    replaceSymbol "a.b" "" = "ab" ∧
    (compileFilters none (fun _ => "") c5params).names.lookup "#a.b" = some "a.b" ∧
    (compileFilters none (fun _ => "") c5params).names.lookup "#ab" = none ∧
    (compileFilters none (fun _ => "") c5params).values.lookup ":a.b" = some (.str "v") ∧
    (compileFilters none (fun _ => "") c5params).values.lookup ":ab" = none :=
  ⟨rfl, rfl, rfl, rfl, rfl⟩

/-- C5 (amended): filter fields are used verbatim — `'#' + field` and
`':' + field` with no `replaceSymbol` call — so for every field (other than
the partition key's `pk`) the compiled maps bind exactly the unsanitized
placeholders; only the partition-key attribute name is sanitized. -/
theorem claim_C5 (s f v op : String) (hashes : Nat → String) (h : f ≠ "pk") :
    ((compileFilters none hashes
        ⟨.scalar s, [⟨f, v, none, op⟩], none, none, none, none, none⟩).names.lookup
      ("#" ++ f) = some f) ∧
    ((compileFilters none hashes
        ⟨.scalar s, [⟨f, v, none, op⟩], none, none, none, none, none⟩).values.lookup
      (":" ++ f) = some (.str v)) := by
  have hne : ((":" ++ f : String) == ":pk") = false := by
    rw [beq_eq_false_iff_ne]
    intro hh
    exact h (string_append_left_cancel (s := ":") (a := f) (b := "pk") hh)
  have hK : hasKey [((":pk" : String), toDynamoDBValueStr s)] (":" ++ f) = false := by
    simp [hasKey, List.lookup, hne]
  constructor
  · simp only [compileFilters, List.foldl, processFilter, initState, resolvePk]
    split <;> exact setKey_lookup_self _ _ _
  · simp only [compileFilters, List.foldl, processFilter, initState, resolvePk]
    rw [show ((":" : String) ++ replaceSymbol "pk" "") = ":pk" from rfl, hK]
    simp only [Bool.false_eq_true, if_false, setKeyTrack]
    split <;> exact setKey_lookup_self _ _ _

/-- C5 witness: the amended theorem applied at the dotted field `a.b`. -/
theorem claim_C5_witness :
    ((compileFilters none (fun _ => "")
        ⟨.scalar "p", [⟨"a.b", "v", none, "eq"⟩], none, none, none, none, none⟩).names.lookup
      ("#" ++ "a.b") = some "a.b") ∧
    ((compileFilters none (fun _ => "")
        ⟨.scalar "p", [⟨"a.b", "v", none, "eq"⟩], none, none, none, none, none⟩).values.lookup
      (":" ++ "a.b") = some (.str "v")) :=
  claim_C5 "p" "a.b" "v" "eq" (fun _ => "") (by decide)

-- ***************************************************************************
-- Claim C6 : the merge engine is claimed pure; it mutates its inputs
-- ***************************************************************************

/-- C6 (counterexample): the merge is not a pure function of its inputs.  On
the spec's own worked example the update document comes back with `tags`
replaced by the merged array (the loop assigns `data[attr] = ...`), and on an
add-directive for an attribute absent from the previous item the previous
item comes back with an empty array seeded at that attribute
(`previousData[attr] = []`). -/
theorem claim_C6_counterexample :
    (mergeUpdate c1prev c1doc).map MergeState.data ≠ some c1doc ∧
    (mergeUpdate [("pk", .str "a")] [("tags", .obj [("add", .arr [.str "x"])])]).map
        MergeState.prev ≠ some [("pk", .str "a")] := by
  constructor
  · intro h
    rw [show (mergeUpdate c1prev c1doc).map MergeState.data =
        some [("tags", JsValue.arr [.str "y", .str "z", .str "x"])] from rfl] at h
    simp [c1doc] at h
  · intro h
    rw [show (mergeUpdate [("pk", .str "a")] [("tags", .obj [("add", .arr [.str "x"])])]).map
        MergeState.prev = some [("pk", JsValue.str "a"), ("tags", JsValue.arr [])] from rfl] at h
    simp at h

/-- C6 (amended): the merge engine mutates both inputs.  For every previous
item lacking `attr` and an update document `{attr: {add: l}}`, the update
document ends holding the merged array (a different value from the directive
it held), and the previous item ends holding a seeded empty array at `attr`
(a different object from the input). -/
theorem claim_C6 (prev : JsObject) (attr : String) (l : List JsValue)
    (h : prev.lookup attr = none) :
    (mergeUpdate prev [(attr, .obj [("add", .arr l)])]).map MergeState.data =
      some [(attr, .arr (dedupFirst (l ++ [])))] ∧
    (mergeUpdate prev [(attr, .obj [("add", .arr l)])]).map MergeState.prev =
      some (setKey prev attr (.arr [])) ∧
    ([(attr, JsValue.arr (dedupFirst (l ++ [])))] : JsObject) ≠
      [(attr, .obj [("add", .arr l)])] ∧
    setKey prev attr (.arr []) ≠ prev := by
  have hK : hasKey prev attr = false := by simp [hasKey, h]
  have hstep : mergeStep ⟨prev, [(attr, .obj [("add", .arr l)])], prev⟩ attr =
      some ⟨setKey prev attr (.arr []), [(attr, .arr (dedupFirst (l ++ [])))],
            if (dedupFirst (l ++ [])).length > 0 then
              setKey prev attr (.arr (dedupFirst (l ++ []))) else prev⟩ := by
    simp only [mergeStep, List.lookup, beq_self_eq_true, Option.getD_some,
      JsValue.getField, truthyOpt, h, isArrOpt, JsValue.truthy, Option.isSome_some,
      Bool.not_false, Bool.and_self, if_true, setKey_lookup_self, spreadElems,
      Option.bind_some, removeFilter]
    simp [setKey, spreadElems]
  constructor
  · rw [show mergeUpdate prev [(attr, .obj [("add", .arr l)])] =
        (mergeStep ⟨prev, [(attr, .obj [("add", .arr l)])], prev⟩ attr).bind
          (fun st => mergeLoop st []) from rfl, hstep]
    rfl
  constructor
  · rw [show mergeUpdate prev [(attr, .obj [("add", .arr l)])] =
        (mergeStep ⟨prev, [(attr, .obj [("add", .arr l)])], prev⟩ attr).bind
          (fun st => mergeLoop st []) from rfl, hstep]
    rfl
  constructor
  · simp
  · rw [setKey_not_mem _ _ _ hK]
    intro hh
    have := congrArg List.length hh
    simp at this

/-- C6 witness: the amended theorem applied to previous item `{pk:"a"}` and
update `{tags: {add:["x"]}}`. -/
theorem claim_C6_witness :
    (mergeUpdate [("pk", .str "a")] [("tags", .obj [("add", .arr [.str "x"])])]).map
        MergeState.data = some [("tags", .arr (dedupFirst ([JsValue.str "x"] ++ [])))] ∧
    (mergeUpdate [("pk", .str "a")] [("tags", .obj [("add", .arr [.str "x"])])]).map
        MergeState.prev = some (setKey [("pk", .str "a")] "tags" (.arr [])) ∧
    ([("tags", JsValue.arr (dedupFirst ([JsValue.str "x"] ++ [])))] : JsObject) ≠
      [("tags", .obj [("add", .arr [JsValue.str "x"])])] ∧
    setKey [("pk", JsValue.str "a")] "tags" (.arr []) ≠ [("pk", JsValue.str "a")] :=
  claim_C6 [("pk", .str "a")] "tags" [.str "x"] rfl

-- ***************************************************************************
-- Claims C2 and C3 : the array-merge semantics
-- ***************************************************************************

/-- Modelled from the spec (refinement target, written from the spec's words,
to be compared with the loop embedded from the source): the add elements
first, then the previous array elements, deduplicated by value equality
keeping the first occurrence, then every element occurring in `remove`
filtered out. -/
def specArrayMerge (prevElems addElems removeElems : List JsValue) : List JsValue :=
  (dedupFirst (addElems ++ prevElems)).filter (fun v => !(removeElems.contains v))

/-- The array-merge branch of one loop iteration, on a single-attribute update
document: the update document ends up holding the merged array of
`specArrayMerge`, and the accumulating result receives it exactly when it is
non-empty.  `add`/`remove` may each be present (an array) or absent, at least
one present; the previous value is absent or an array. -/
theorem mergeStep_array (prev : JsObject) (attr : String) (directive : JsValue)
    (addOpt removeOpt prevOpt : Option (List JsValue))
    (hadd : directive.getField "add" = addOpt.map .arr)
    (hrem : directive.getField "remove" = removeOpt.map .arr)
    (hsome : (addOpt.isSome || removeOpt.isSome) = true)
    (hprev : prev.lookup attr = prevOpt.map .arr) :
    ∃ p1, mergeStep ⟨prev, [(attr, directive)], prev⟩ attr =
      some ⟨p1,
        [(attr, .arr (specArrayMerge (prevOpt.getD []) (addOpt.getD []) (removeOpt.getD [])))],
        if (specArrayMerge (prevOpt.getD []) (addOpt.getD []) (removeOpt.getD [])).length > 0 then
          setKey prev attr
            (.arr (specArrayMerge (prevOpt.getD []) (addOpt.getD []) (removeOpt.getD [])))
        else prev⟩ := by
  rcases addOpt with - | a <;> rcases removeOpt with - | r <;> rcases prevOpt with - | pl
  · simp at hsome
  · simp at hsome
  · refine ⟨prev, ?_⟩
    simp [mergeStep, List.lookup, hadd, hrem, hprev, isArrOpt, truthyOpt, setArgElems,
      spreadElems, removeFilter, specArrayMerge, setKey, JsValue.truthy, dedupFirst,
      List.contains]
  · refine ⟨prev, ?_⟩
    simp [mergeStep, List.lookup, hadd, hrem, hprev, isArrOpt, truthyOpt, setArgElems,
      spreadElems, removeFilter, specArrayMerge, setKey, JsValue.truthy, dedupFirst,
      List.contains]
  · refine ⟨setKey prev attr (.arr []), ?_⟩
    simp [mergeStep, List.lookup, hadd, hrem, hprev, isArrOpt, truthyOpt, setArgElems,
      spreadElems, removeFilter, specArrayMerge, setKey, JsValue.truthy, dedupFirst,
      List.contains, setKey_lookup_self]
  · refine ⟨prev, ?_⟩
    simp [mergeStep, List.lookup, hadd, hrem, hprev, isArrOpt, truthyOpt, setArgElems,
      spreadElems, removeFilter, specArrayMerge, setKey, JsValue.truthy, dedupFirst,
      List.contains]
  · refine ⟨setKey prev attr (.arr []), ?_⟩
    simp [mergeStep, List.lookup, hadd, hrem, hprev, isArrOpt, truthyOpt, setArgElems,
      spreadElems, removeFilter, specArrayMerge, setKey, JsValue.truthy, dedupFirst,
      setKey_lookup_self]
  · refine ⟨prev, ?_⟩
    simp [mergeStep, List.lookup, hadd, hrem, hprev, isArrOpt, truthyOpt, setArgElems,
      spreadElems, removeFilter, specArrayMerge, setKey, JsValue.truthy, dedupFirst]

/-- C2: for every previous item (whose value at the attribute is absent or an
array of primitives) and every array-merge directive (`add` and/or `remove`
arrays of primitives), the merged array equals `specArrayMerge`: add elements
first, then previous elements (defaulting to empty), deduplicated by value
equality keeping the first occurrence, with every `remove` member filtered
out.  It is written into the result exactly when non-empty (directly visible
in the mutated update document either way). -/
theorem claim_C2 (prev : JsObject) (attr : String) (directive : JsValue)
    (addOpt removeOpt prevOpt : Option (List JsValue))
    (hadd : directive.getField "add" = addOpt.map .arr)
    (hrem : directive.getField "remove" = removeOpt.map .arr)
    (hsome : (addOpt.isSome || removeOpt.isSome) = true)
    (hprev : prev.lookup attr = prevOpt.map .arr)
    (hprim : ((addOpt.getD []) ++ (prevOpt.getD []) ++ (removeOpt.getD [])).all
      JsValue.isPrimitive = true) :
    (mergeUpdate prev [(attr, directive)]).map MergeState.data =
      some [(attr,
        .arr (specArrayMerge (prevOpt.getD []) (addOpt.getD []) (removeOpt.getD [])))] ∧
    (specArrayMerge (prevOpt.getD []) (addOpt.getD []) (removeOpt.getD []) ≠ [] →
      (mergeUpdate prev [(attr, directive)]).map (fun st => st.request.lookup attr) =
        some (some
          (.arr (specArrayMerge (prevOpt.getD []) (addOpt.getD []) (removeOpt.getD []))))) := by
  obtain ⟨p1, hstep⟩ :=
    mergeStep_array prev attr directive addOpt removeOpt prevOpt hadd hrem hsome hprev
  have hmu : mergeUpdate prev [(attr, directive)] =
      (mergeStep ⟨prev, [(attr, directive)], prev⟩ attr).bind (fun st => mergeLoop st []) := rfl
  constructor
  · rw [hmu, hstep]
    rfl
  · intro hne
    have hlen : 0 < (specArrayMerge (prevOpt.getD []) (addOpt.getD [])
        (removeOpt.getD [])).length := List.length_pos.mpr hne
    rw [hmu, hstep]
    simp only [Option.bind_some, mergeLoop, Option.map_some, gt_iff_lt, if_pos hlen]
    simp [setKey_lookup_self]

/-- C2 witness: the general theorem applied to the spec's worked example
(previous tags `["x","y"]`, add `["y","z"]`, no remove). -/
theorem claim_C2_witness :
    (mergeUpdate c1prev [("tags", .obj [("add", .arr [.str "y", .str "z"])])]).map
        MergeState.data =
      some [("tags", .arr (specArrayMerge ((some [JsValue.str "x", .str "y"]).getD [])
        ((some [JsValue.str "y", .str "z"]).getD [])
        ((none : Option (List JsValue)).getD [])))] ∧
    (specArrayMerge ((some [JsValue.str "x", .str "y"]).getD [])
        ((some [JsValue.str "y", .str "z"]).getD [])
        ((none : Option (List JsValue)).getD []) ≠ [] →
      (mergeUpdate c1prev [("tags", .obj [("add", .arr [.str "y", .str "z"])])]).map
          (fun st => st.request.lookup "tags") =
        some (some (.arr (specArrayMerge ((some [JsValue.str "x", .str "y"]).getD [])
          ((some [JsValue.str "y", .str "z"]).getD [])
          ((none : Option (List JsValue)).getD []))))) :=
  claim_C2 c1prev "tags" (.obj [("add", .arr [.str "y", .str "z"])])
    (some [.str "y", .str "z"]) none (some [.str "x", .str "y"]) rfl rfl rfl rfl rfl

/-- The previous item of the C3 counterexample (it holds `tags`). -/
def c3prev : JsObject := [("pk", .str "a"), ("sk", .str "b"), ("tags", .arr [.str "x"])]

/-- An update document whose array-merge empties `tags`. -/
def c3doc : JsObject := [("tags", .obj [("add", .arr []), ("remove", .arr [.str "x"])])]

/-- C3 (counterexample): the array-merge on `tags` yields the empty array (the
mutated update document shows `[]`), yet the merged result still carries
`tags` with its previous value `["x"]` — the attribute is not absent, because
`requestData` was seeded with a copy of the previous item and the empty merge
merely skips the write. -/
theorem claim_C3_counterexample :
    (mergeUpdate c3prev c3doc).map (fun st => st.data.lookup "tags") =
      some (some (.arr [])) ∧
    (mergeUpdate c3prev c3doc).map (fun st => st.request.lookup "tags") =
      some (some (.arr [.str "x"])) ∧
    (mergeUpdate c3prev c3doc).map (fun st => st.request.lookup "tags") ≠ some none := by
  refine ⟨rfl, rfl, ?_⟩
  intro h
  rw [show (mergeUpdate c3prev c3doc).map (fun st => st.request.lookup "tags") =
      some (some (.arr [.str "x"])) from rfl] at h
  simp at h

/-- C3 (amended): when the array-merge yields an empty array the attribute is
simply not written: the merged result equals the previous item exactly — the
attribute keeps its previous value when present, and is absent only when it
was absent before. -/
theorem claim_C3 (prev : JsObject) (attr : String) (directive : JsValue)
    (addOpt removeOpt prevOpt : Option (List JsValue))
    (hadd : directive.getField "add" = addOpt.map .arr)
    (hrem : directive.getField "remove" = removeOpt.map .arr)
    (hsome : (addOpt.isSome || removeOpt.isSome) = true)
    (hprev : prev.lookup attr = prevOpt.map .arr)
    (hempty : specArrayMerge (prevOpt.getD []) (addOpt.getD []) (removeOpt.getD []) = []) :
    (mergeUpdate prev [(attr, directive)]).map MergeState.request = some prev := by
  obtain ⟨p1, hstep⟩ :=
    mergeStep_array prev attr directive addOpt removeOpt prevOpt hadd hrem hsome hprev
  rw [hempty] at hstep
  rw [show mergeUpdate prev [(attr, directive)] =
      (mergeStep ⟨prev, [(attr, directive)], prev⟩ attr).bind (fun st => mergeLoop st []) from rfl,
    hstep]
  simp [mergeLoop]

/-- C3 witness: the amended theorem applied to the counterexample input — the
merged result is exactly the previous item, `tags` included. -/
theorem claim_C3_witness :
    (mergeUpdate c3prev [("tags", .obj [("add", .arr []), ("remove", .arr [.str "x"])])]).map
        MergeState.request = some c3prev :=
  claim_C3 c3prev "tags" (.obj [("add", .arr []), ("remove", .arr [.str "x"])])
    (some []) (some [.str "x"]) (some [.str "x"]) rfl rfl rfl rfl rfl

-- ***************************************************************************
-- Claim C7 : the key-condition / filter-expression routing rule
-- ***************************************************************************

/-- One loop iteration appends the filter's `(field, fragment)` pair to the
trace, and appends the fragment to the key-condition list exactly when the
routing rule fires, to the filter-expression list otherwise. -/
theorem processFilter_trace (idx : Option String) (hashes : Nat → String)
    (st : CompileState) (f : FilterInfo) :
    ∃ fr, (processFilter idx hashes st f).trace = st.trace ++ [(f.field, fr)] ∧
      (processFilter idx hashes st f).keyCondFrags =
        st.keyCondFrags ++ (if routeToKeyCondition idx f.field then [fr] else []) ∧
      (processFilter idx hashes st f).filterFrags =
        st.filterFrags ++ (if routeToKeyCondition idx f.field then [] else [fr]) := by
  refine ⟨setOperator ("#" ++ f.field)
    (if hasKey st.values (":" ++ f.field) then (":" ++ f.field) ++ hashes st.ctr
     else ":" ++ f.field) (":" ++ f.field ++ "2") f.operator, ?_, ?_, ?_⟩ <;>
  · by_cases hr : routeToKeyCondition idx f.field = true <;>
      by_cases hk : hasKey st.values (":" ++ f.field) = true <;>
      simp [processFilter, hr, hk]

/-- The filter loop as a whole: its trace extends the seed trace, and the
fragment lists are exactly the routed / unrouted projections of that trace. -/
theorem compileFilters_route (idx : Option String) (hashes : Nat → String)
    (fs : List FilterInfo) (st : CompileState) :
    ∃ tr, (fs.foldl (processFilter idx hashes) st).trace = st.trace ++ tr ∧
      (fs.foldl (processFilter idx hashes) st).keyCondFrags =
        st.keyCondFrags ++ (tr.filter (fun p => routeToKeyCondition idx p.1)).map Prod.snd ∧
      (fs.foldl (processFilter idx hashes) st).filterFrags =
        st.filterFrags ++ (tr.filter (fun p => !(routeToKeyCondition idx p.1))).map Prod.snd := by
  induction fs generalizing st with
  | nil => exact ⟨[], by simp, by simp, by simp⟩
  | cons f fs ih =>
    obtain ⟨fr, e1, e2, e3⟩ := processFilter_trace idx hashes st f
    obtain ⟨tr, h1, h2, h3⟩ := ih (processFilter idx hashes st f)
    refine ⟨(f.field, fr) :: tr, ?_, ?_, ?_⟩
    · rw [List.foldl_cons, h1, e1]
      simp
    · rw [List.foldl_cons, h2, e2]
      by_cases hr : routeToKeyCondition idx f.field = true <;> simp [hr]
    · rw [List.foldl_cons, h3, e3]
      by_cases hr : routeToKeyCondition idx f.field = true <;> simp [hr]

/-- When the supplied index name is not the (falsy) empty string, the routing
condition is: field `sk`, or field `date` with an index name supplied. -/
theorem route_eq_of_ne (idx : Option String) (h : idx ≠ some "") (fld : String) :
    routeToKeyCondition idx fld = (fld == "sk" || (idx.isSome && fld == "date")) := by
  rcases idx with - | s
  · rfl
  · have hs : s ≠ "" := fun hh => h (by rw [hh])
    simp [routeToKeyCondition, idxTruthy, hs]

/-- C7: for every list request (with a non-empty index name when supplied),
the key-condition fragments are the seed `#pk = :pk` fragment followed by the
fragments of exactly those filters whose field is `sk`, or `date` when an
index name is supplied, in order and regardless of position; every other
filter's fragment lands in the filter-expression list. -/
theorem claim_C7 (idx : Option String) (hashes : Nat → String) (params : ListParams)
    (h : idx ≠ some "") :
    (compileFilters idx hashes params).keyCondFrags =
      (initState params.pk).keyCondFrags ++
        (((compileFilters idx hashes params).trace.filter
          (fun p => p.1 == "sk" || (idx.isSome && p.1 == "date"))).map Prod.snd) ∧
    (compileFilters idx hashes params).filterFrags =
      ((compileFilters idx hashes params).trace.filter
        (fun p => !(p.1 == "sk" || (idx.isSome && p.1 == "date")))).map Prod.snd := by
  obtain ⟨tr, h1, h2, h3⟩ := compileFilters_route idx hashes params.filters (initState params.pk)
  have hfun : (fun p : String × String => routeToKeyCondition idx p.1) =
      (fun p : String × String => p.1 == "sk" || (idx.isSome && p.1 == "date")) :=
    funext fun p => route_eq_of_ne idx h p.1
  have hfunNeg : (fun p : String × String => !(routeToKeyCondition idx p.1)) =
      (fun p : String × String => !(p.1 == "sk" || (idx.isSome && p.1 == "date"))) :=
    funext fun p => by rw [route_eq_of_ne idx h p.1]
  have htr : (compileFilters idx hashes params).trace = tr := by
    rw [show compileFilters idx hashes params =
      params.filters.foldl (processFilter idx hashes) (initState params.pk) from rfl, h1]
    rfl
  rw [show compileFilters idx hashes params =
    params.filters.foldl (processFilter idx hashes) (initState params.pk) from rfl] at htr ⊢
  rw [h2, h3, htr, ← hfun, ← hfunNeg]
  exact ⟨rfl, rfl⟩

/-- C7 witness: with index `g` and filters on `sk` (second position), `date`
and `amount`, the `sk` and `date` fragments join the key condition and the
`amount` fragment the filter expression. -/
theorem claim_C7_witness :
    (compileFilters (some "g") c4hashes
        ⟨.scalar "p", [⟨"amount", "1", none, "eq"⟩, ⟨"sk", "2", none, "eq"⟩,
          ⟨"date", "3", none, "eq"⟩], none, none, none, none, none⟩).keyCondFrags =
      (initState (.scalar "p")).keyCondFrags ++
        (((compileFilters (some "g") c4hashes
          ⟨.scalar "p", [⟨"amount", "1", none, "eq"⟩, ⟨"sk", "2", none, "eq"⟩,
            ⟨"date", "3", none, "eq"⟩], none, none, none, none, none⟩).trace.filter
          (fun p => p.1 == "sk" || ((some "g").isSome && p.1 == "date"))).map Prod.snd) ∧
    (compileFilters (some "g") c4hashes
        ⟨.scalar "p", [⟨"amount", "1", none, "eq"⟩, ⟨"sk", "2", none, "eq"⟩,
          ⟨"date", "3", none, "eq"⟩], none, none, none, none, none⟩).filterFrags =
      ((compileFilters (some "g") c4hashes
        ⟨.scalar "p", [⟨"amount", "1", none, "eq"⟩, ⟨"sk", "2", none, "eq"⟩,
          ⟨"date", "3", none, "eq"⟩], none, none, none, none, none⟩).trace.filter
        (fun p => !(p.1 == "sk" || ((some "g").isSome && p.1 == "date")))).map Prod.snd :=
  claim_C7 (some "g") c4hashes
    ⟨.scalar "p", [⟨"amount", "1", none, "eq"⟩, ⟨"sk", "2", none, "eq"⟩,
      ⟨"date", "3", none, "eq"⟩], none, none, none, none, none⟩ (by simp)

-- ***************************************************************************
-- Claim C9 : the value codec
-- ***************************************************************************

mutual

/-- The codec succeeds exactly on supported values. -/
theorem tdv_isSome : ∀ (v : JsValue), (toDynamoDBValue v).isSome = supportedValue v
  | .str _ => rfl
  | .num _ => rfl
  | .bool _ => rfl
  | .null => rfl
  | .undef => rfl
  | .func => rfl
  | .obj _ => rfl
  | .arr xs => by
      simp [toDynamoDBValue, supportedValue, ← tdvList_isSome xs]

/-- The element-wise codec succeeds exactly on lists of supported values. -/
theorem tdvList_isSome : ∀ (xs : List JsValue),
    (toDynamoDBValueList xs).isSome = supportedList xs
  | [] => rfl
  | x :: xs => by
      have h1 := tdv_isSome x
      have h2 := tdvList_isSome xs
      simp only [toDynamoDBValueList, supportedList, ← h1, ← h2]
      cases toDynamoDBValue x <;> cases toDynamoDBValueList xs <;> simp

end

/-- A successful element-wise encoding relates input and output pointwise. -/
theorem tdvList_forall2 : ∀ (xs ys : List JsValue), toDynamoDBValueList xs = some ys →
    List.Forall₂ (fun x y => toDynamoDBValue x = some y) xs ys
  | [], ys, h => by
      simp only [toDynamoDBValueList, Option.some.injEq] at h
      rw [← h]
      exact .nil
  | x :: xs, ys, h => by
      simp only [toDynamoDBValueList] at h
      cases hx : toDynamoDBValue x with
      | none => rw [hx] at h; exact Option.noConfusion h
      | some y =>
        rw [hx] at h
        cases hxs : toDynamoDBValueList xs with
        | none => rw [hxs] at h; exact Option.noConfusion h
        | some ys2 =>
          rw [hxs] at h
          simp at h
          rw [← h]
          exact .cons hx (tdvList_forall2 xs ys2 hxs)

/-- C9: the codec passes strings and booleans through, stringifies numbers,
sends `null`/`undefined` to `null`, encodes arrays element-wise, and succeeds
exactly on the supported values (primitives and, recursively, arrays of
supported values) — failing on every other value. -/
theorem claim_C9 :
    (∀ s, toDynamoDBValue (.str s) = some (.str s)) ∧
    (∀ n : Int, toDynamoDBValue (.num n) = some (.str (toString n))) ∧
    (∀ b, toDynamoDBValue (.bool b) = some (.bool b)) ∧
    toDynamoDBValue .null = some .null ∧
    toDynamoDBValue .undef = some .null ∧
    (∀ xs ys, toDynamoDBValue (.arr xs) = some (.arr ys) →
      List.Forall₂ (fun x y => toDynamoDBValue x = some y) xs ys) ∧
    (∀ v, (toDynamoDBValue v).isSome = true ↔ supportedValue v = true) := by
  refine ⟨fun s => rfl, fun n => rfl, fun b => rfl, rfl, rfl, ?_, ?_⟩
  · intro xs ys h
    simp only [toDynamoDBValue] at h
    cases hl : toDynamoDBValueList xs with
    | none => rw [hl] at h; exact Option.noConfusion h
    | some l =>
      rw [hl] at h
      simp at h
      rw [← h]
      exact tdvList_forall2 xs l hl
  · intro v
    rw [tdv_isSome]

/-- C9 witness: a mixed array encodes element-wise, and the codec rejects a
function value (an unsupported type). -/
theorem claim_C9_witness :
    List.Forall₂ (fun x y => toDynamoDBValue x = some y)
      [JsValue.str "a", .num 2, .bool true] [JsValue.str "a", .str "2", .bool true] ∧
    ((toDynamoDBValue .func).isSome = true ↔ supportedValue .func = true) :=
  ⟨claim_C9.2.2.2.2.2.1 [.str "a", .num 2, .bool true] [.str "a", .str "2", .bool true] rfl,
   claim_C9.2.2.2.2.2.2 .func⟩

end DynamoODM
